import Mathlib

/-!
Shallow embedding of the workflow-registry extension (src/src/extension.ts).

The registry scans the designated subdirectory (named .windsurf) of each
workspace root for definition files, parses each accepted file into a
WorkflowDefinition record, keeps the record list sorted by label, and on
selection hands a command string plus working directory to the terminal
runner.  External collaborators (the JSON and YAML decoders, the locale
comparison used by sort, the quick-pick widget) are modelled as explicit
function parameters; the filesystem is modelled as a finite tree whose
files carry an optional content (none models a file whose read fails).
-/

deriving instance DecidableEq for Except

/-- Decoded structured value, as produced by JSON.parse or yaml.load.
JValue.null models the JavaScript nullish values (null and undefined). -/
inductive JValue : Type where
  | str : String → JValue
  | num : Int → JValue
  | bool : Bool → JValue
  | null : JValue
  | arr : List JValue → JValue
  | obj : List (String × JValue) → JValue

/-- Property lookup on a JavaScript object literal: a later duplicate key
overwrites an earlier one, so the last binding wins. -/
def lookupLast (fields : List (String × JValue)) (key : String) : Option JValue :=
  match fields with
  | [] => none
  | (k, v) :: rest =>
    match lookupLast rest key with
    | some r => some r
    | none => if k = key then some v else none

/-- Optional chaining access data?.[key]: undefined unless data is an object
holding the key. -/
def getProp (data : JValue) (key : String) : Option JValue :=
  match data with
  | JValue.obj fields => lookupLast fields key
  | _ => none

/-- Lowercasing of a string, modelling toLowerCase on the ASCII names in play. -/
def toLowerStr (s : String) : String :=
  String.mk (s.data.map Char.toLower)

/-- Suffix test on strings, modelling the anchored regular-expression match. -/
def endsWithStr (s post : String) : Bool :=
  post.data.isSuffixOf s.data

/-- Whitespace trimming at both ends, modelling the JavaScript trim method. -/
def trimStr (s : String) : String :=
  String.mk (((s.data.dropWhile Char.isWhitespace).reverse.dropWhile
    Char.isWhitespace).reverse)

/-- Segments of a character list split at every slash. -/
def splitSlash : List Char → List (List Char)
  | [] => [[]]
  | c :: rest =>
    let r := splitSlash rest
    if c = '/' then [] :: r
    else
      match r with
      | [] => [[c]]
      | g :: gs => (c :: g) :: gs

/-- Join of segments with slashes in between. -/
def joinSlash : List (List Char) → List Char
  | [] => []
  | [g] => g
  | g :: gs => g ++ '/' :: joinSlash gs

/-- Node path.basename: the last path segment (separator is the slash). -/
def basename (p : String) : String :=
  String.mk ((splitSlash p.data).getLastD p.data)

/-- Index of the last dot in a character list, if any. -/
def lastDotIdx (cs : List Char) : Option Nat :=
  match cs with
  | [] => none
  | c :: rest =>
    match lastDotIdx rest with
    | some i => some (i + 1)
    | none => if c = '.' then some 0 else none

/-- Node path.extname: the substring of the basename from its last dot,
empty when the basename has no dot, when the only dot is its first
character, or when the basename is exactly two dots. -/
def extname (p : String) : String :=
  let cs := (basename p).toList
  match lastDotIdx cs with
  | none => ""
  | some i =>
    if i = 0 then ""
    else if i = 1 ∧ i + 1 = cs.length ∧ cs.headD ' ' = '.' then ""
    else String.mk (cs.drop i)

/-- Node path.dirname: the parent directory of a path. -/
def dirname (p : String) : String :=
  match splitSlash p.data with
  | [] => "."
  | [_] => "."
  | parts =>
    let front := parts.dropLast
    if front.all (fun s => s = []) then "/" else String.mk (joinSlash front)

/-- Node path.join restricted to the normal shapes the registry builds. -/
def pathJoin (dir name : String) : String :=
  dir ++ "/" ++ name

/-- One parsed definition file (the WorkflowDefinition interface). -/
structure WorkflowDefinition : Type where
  label : String
  description : Option String
  filePath : String
  command : Option String
deriving DecidableEq, Repr

/-- Notification shown through the host (message plus severity). -/
inductive Notif : Type where
  | info : String → Notif
  | warn : String → Notif
deriving DecidableEq, Repr

/-- External decoders: jsonParse models JSON.parse, yamlLoad models
yaml.load (with JValue.null standing for a nullish result).  An error value
models a thrown syntax error. -/
structure Decoders : Type where
  jsonParse : String → Except String JValue
  yamlLoad : String → Except String JValue

/-- The nullish coalescing applied to the YAML result: yaml.load(raw) ?? \x7b\x7d. -/
def nullishOrEmpty (v : JValue) : JValue :=
  match v with
  | JValue.null => JValue.obj []
  | v => v

/-- Decoder selection in parseWorkflow: the JSON decoder when the lowercased
extname is .json, otherwise the YAML decoder with the empty-object fallback. -/
def decodeData (dec : Decoders) (ext raw : String) : Except String JValue :=
  if ext = ".json" then dec.jsonParse raw
  else (dec.yamlLoad raw).map nullishOrEmpty

/-- Message of the error thrown when reading the file fails (the readFile
call sits outside the try block, so this error propagates). -/
def readErrorMsg (filePath : String) : String :=
  "EIO: unable to read file " ++ filePath

/-- Warning text shown when decoding fails, naming the offending file. -/
def parseWarning (filePath e : String) : String :=
  "Unable to parse workflow " ++ basename filePath ++ ": " ++ e

/-- parseWorkflow: read the file (a failed read throws, uncaught), pick the
decoder by lowercased extname, fall back to the empty object plus a warning
when decoding throws, then extract label, description and command. -/
def parseWorkflow (dec : Decoders) (filePath : String) (content : Option String) :
    Except String (WorkflowDefinition × List Notif) :=
  match content with
  | none => Except.error (readErrorMsg filePath)
  | some raw =>
    let ext := toLowerStr (extname filePath)
    let dataNotifs :=
      match decodeData dec ext raw with
      | Except.ok d => (d, ([] : List Notif))
      | Except.error e => (JValue.obj [], [Notif.warn (parseWarning filePath e)])
    let data := dataNotifs.1
    let label :=
      match getProp data "name" with
      | some (JValue.str s) =>
        if (trimStr s).length > 0 then trimStr s else basename filePath
      | _ => basename filePath
    let description :=
      match getProp data "description" with
      | some (JValue.str s) => some s
      | _ => none
    let command :=
      match getProp data "command" with
      | some (JValue.str s) => some s
      | _ => none
    Except.ok ({ label := label, description := description,
                 filePath := filePath, command := command }, dataNotifs.2)

mutual

/-- Filesystem node: a file carries an optional content (none models a file
whose read fails), a directory carries named child entries. -/
inductive FSNode : Type where
  | file : Option String → FSNode
  | dir : FSEntries → FSNode

/-- Ordered directory listing: the named entries of one directory, in the
order readdir reports them. -/
inductive FSEntries : Type where
  | nil : FSEntries
  | cons : String → FSNode → FSEntries → FSEntries

end

/-- isWorkflowFile: the accepted-extension filter, a case-insensitive
ends-with test for .workflow, .yaml, .yml and .json. -/
def isWorkflowFile (fileName : String) : Bool :=
  let lower := toLowerStr fileName
  endsWithStr lower ".workflow" || endsWithStr lower ".yaml" ||
    endsWithStr lower ".yml" || endsWithStr lower ".json"

/-- collectWorkflows: recursively enumerate a directory; descend into every
subdirectory, parse every accepted file into exactly one record, skip other
files.  A thrown error (failed read) propagates and aborts the walk. -/
def collectWorkflows (dec : Decoders) :
    String → FSEntries → Except String (List WorkflowDefinition × List Notif)
  | _, FSEntries.nil => Except.ok ([], [])
  | dirPath, FSEntries.cons name (FSNode.dir sub) rest =>
    match collectWorkflows dec (pathJoin dirPath name) sub with
    | Except.error e => Except.error e
    | Except.ok (ws1, ns1) =>
      match collectWorkflows dec dirPath rest with
      | Except.error e => Except.error e
      | Except.ok (ws2, ns2) => Except.ok (ws1 ++ ws2, ns1 ++ ns2)
  | dirPath, FSEntries.cons name (FSNode.file content) rest =>
    if isWorkflowFile name then
      match parseWorkflow dec (pathJoin dirPath name) content with
      | Except.error e => Except.error e
      | Except.ok (w, ns1) =>
        match collectWorkflows dec dirPath rest with
        | Except.error e => Except.error e
        | Except.ok (ws2, ns2) => Except.ok (w :: ws2, ns1 ++ ns2)
    else collectWorkflows dec dirPath rest

/-- One workspace root: its path and its top-level directory entries. -/
structure Root : Type where
  path : String
  entries : FSEntries

/-- Name lookup among directory entries (first match). -/
def lookupEntry (entries : FSEntries) (name : String) : Option FSNode :=
  match entries with
  | FSEntries.nil => none
  | FSEntries.cons k v rest => if k = name then some v else lookupEntry rest name

/-- pathExists: the fs.access probe, true when an entry of that name exists
regardless of its kind. -/
def pathExists (entries : FSEntries) (name : String) : Bool :=
  (lookupEntry entries name).isSome

/-- Scan of one root: skip it silently when the .windsurf entry is absent,
walk it when it is a directory; when a file bears that name the existence
probe passes but the directory read throws. -/
def loadRoot (dec : Decoders) (root : Root) :
    Except String (List WorkflowDefinition × List Notif) :=
  match lookupEntry root.entries ".windsurf" with
  | none => Except.ok ([], [])
  | some (FSNode.dir sub) => collectWorkflows dec (pathJoin root.path ".windsurf") sub
  | some (FSNode.file _) =>
    Except.error ("ENOTDIR: not a directory " ++ pathJoin root.path ".windsurf")

/-- Accumulation of the per-root scans, in root order. -/
def loadRootsAcc (dec : Decoders) :
    List Root → Except String (List WorkflowDefinition × List Notif)
  | [] => Except.ok ([], [])
  | r :: rest =>
    match loadRoot dec r with
    | Except.error e => Except.error e
    | Except.ok (ws1, ns1) =>
      match loadRootsAcc dec rest with
      | Except.error e => Except.error e
      | Except.ok (ws2, ns2) => Except.ok (ws1 ++ ws2, ns1 ++ ns2)

/-- Comparator handed to sort: a.label.localeCompare(b.label), where loc
models the locale comparison; the sort keeps a before b when the comparison
is not greater. -/
def labelLe (loc : String → String → Ordering) (a b : WorkflowDefinition) : Bool :=
  loc a.label b.label ≠ Ordering.gt

/-- loadWorkflows: scan every root, then sort the accumulated records by
label under the locale comparison.  Array.prototype.sort is a stable
comparison sort; a stable insertion sort produces the identical list for
every consistent comparator. -/
def loadWorkflows (dec : Decoders) (loc : String → String → Ordering) (roots : List Root) :
    Except String (List WorkflowDefinition × List Notif) :=
  match loadRootsAcc dec roots with
  | Except.error e => Except.error e
  | Except.ok (ws, ns) =>
    Except.ok (List.insertionSort (fun a b => labelLe loc a b = true) ws, ns)

/-- Registry state: the current record list, replaced wholesale by a scan. -/
structure RegistryState : Type where
  workflows : List WorkflowDefinition
deriving DecidableEq, Repr

/-- One scan (refresh): recompute the record list from the filesystem alone
and replace the state; the prior state is not consulted. -/
def scan (dec : Decoders) (loc : String → String → Ordering) (roots : List Root)
    (_s : RegistryState) : Except String RegistryState :=
  match loadWorkflows dec loc roots with
  | Except.error e => Except.error e
  | Except.ok (ws, _) => Except.ok { workflows := ws }

/-- Arguments handed to the terminal runner collaborator. -/
structure TerminalInvocation : Type where
  name : String
  cwd : String
  command : String
deriving DecidableEq, Repr

/-- executeWorkflow: command field when present, otherwise the default
template quoting the source path; working directory is the parent of the
source path; the title derives from the label. -/
def executeWorkflow (w : WorkflowDefinition) : TerminalInvocation :=
  { name := "Windsurf: " ++ w.label
  , cwd := dirname w.filePath
  , command :=
      match w.command with
      | some c => c
      | none => "windsurf run \"" ++ w.filePath ++ "\"" }

/-- Informational message shown when launching with an empty record list. -/
def noWorkflowsMsg : String :=
  "No workflows available. Add files to the .windsurf directory."

/-- runWorkflow: with no specific record, an empty list yields one
informational message and stops; otherwise the picker chooses and a
cancelled pick stops silently; a resolved record is executed. -/
def runWorkflow (pick : List WorkflowDefinition → Option WorkflowDefinition)
    (workflows : List WorkflowDefinition) (item : Option WorkflowDefinition) :
    List Notif × Option TerminalInvocation :=
  match item with
  | none =>
    if workflows.length = 0 then
      ([Notif.info noWorkflowsMsg], none)
    else
      match pick workflows with
      | none => ([], none)
      | some wf => ([], some (executeWorkflow wf))
  | some wf => ([], some (executeWorkflow wf))

/-- Number of accepted definition files in a directory tree. -/
def countAccepted : FSEntries → Nat
  | FSEntries.nil => 0
  | FSEntries.cons _ (FSNode.dir sub) rest => countAccepted sub + countAccepted rest
  | FSEntries.cons name (FSNode.file _) rest =>
    (if isWorkflowFile name then 1 else 0) + countAccepted rest

/-- Every file of the tree is readable (its content is present). -/
def allReadable : FSEntries → Bool
  | FSEntries.nil => true
  | FSEntries.cons _ (FSNode.dir sub) rest => allReadable sub && allReadable rest
  | FSEntries.cons _ (FSNode.file content) rest => content.isSome && allReadable rest

/-- Decoders whose every decode attempt reports a syntax error, used for
concrete runs exercising the failure path. -/
def failingDecoders : Decoders :=
  { jsonParse := fun _ => Except.error "syntax error"
  , yamlLoad := fun _ => Except.error "syntax error" }

/-- Decoders returning fixed decoded objects, used for concrete runs
exercising the success path. -/
def sampleDecoders : Decoders :=
  { jsonParse := fun _ =>
      Except.ok (JValue.obj [("name", JValue.str " Build "), ("command", JValue.str "make")])
  , yamlLoad := fun _ =>
      Except.ok (JValue.obj [("description", JValue.str "  ")]) }

/-- Sample listing holding one parseable file, one subdirectory with a
second file, and one ignored file. -/
def sampleEntries : FSEntries :=
  FSEntries.cons "b.yaml" (FSNode.file (some "x"))
    (FSEntries.cons "sub"
      (FSNode.dir (FSEntries.cons "a.json" (FSNode.file (some "y")) FSEntries.nil))
      (FSEntries.cons "notes.txt" (FSNode.file (some "z")) FSEntries.nil))

/-- A string has positive length exactly when it is not the empty string. -/
theorem string_length_pos_iff (s : String) : 0 < s.length ↔ s ≠ "" := by
  cases s with
  | mk data => cases data <;> simp [String.length, String.ext_iff]

/-- Reading an available file always yields a record: the parse operation
returns Except.ok whenever the content is present. -/
theorem parseWorkflow_some_ok (dec : Decoders) (filePath raw : String) :
    ∃ w ns, parseWorkflow dec filePath (some raw) = Except.ok (w, ns) :=
  ⟨_, _, rfl⟩

/-- Cardinality invariant of the walk: when every file of the tree is
readable the walk succeeds and yields exactly one record per accepted file. -/
theorem collectWorkflows_count (dec : Decoders) :
    ∀ (dirPath : String) (entries : FSEntries), allReadable entries = true →
      ∃ ws ns, collectWorkflows dec dirPath entries = Except.ok (ws, ns) ∧
        ws.length = countAccepted entries
  | _, FSEntries.nil, _ => ⟨[], [], rfl, rfl⟩
  | dirPath, FSEntries.cons name (FSNode.dir sub) rest, h => by
    rw [allReadable, Bool.and_eq_true] at h
    obtain ⟨ws1, ns1, h1, hl1⟩ :=
      collectWorkflows_count dec (pathJoin dirPath name) sub h.1
    obtain ⟨ws2, ns2, h2, hl2⟩ := collectWorkflows_count dec dirPath rest h.2
    refine ⟨ws1 ++ ws2, ns1 ++ ns2, ?_, ?_⟩
    · rw [collectWorkflows, h1, h2]
    · simp [countAccepted, hl1, hl2]
  | dirPath, FSEntries.cons name (FSNode.file content) rest, h => by
    rw [allReadable, Bool.and_eq_true] at h
    obtain ⟨raw, hraw⟩ := Option.isSome_iff_exists.mp h.1
    obtain ⟨ws2, ns2, h2, hl2⟩ := collectWorkflows_count dec dirPath rest h.2
    by_cases hacc : isWorkflowFile name = true
    · obtain ⟨w, ns1, hp⟩ := parseWorkflow_some_ok dec (pathJoin dirPath name) raw
      refine ⟨w :: ws2, ns1 ++ ns2, ?_, ?_⟩
      · rw [collectWorkflows, hraw, if_pos hacc, hp, h2]
      · simp [countAccepted, hacc, hl2, Nat.add_comm]
    · refine ⟨ws2, ns2, ?_, ?_⟩
      · rw [collectWorkflows, hraw, if_neg hacc]
        exact h2
      · simp [countAccepted, hacc, hl2]

/-- Claim C1: every accepted file discovered during a scan yields exactly
one record regardless of parse success; on syntactically invalid contents
the scan is not aborted, exactly one warning naming the file is shown, and
the record carries the filename as label with absent description and
command. -/
theorem claim1_one_record_per_file :
    (∀ (dec : Decoders) (dirPath : String) (entries : FSEntries),
      allReadable entries = true →
      ∃ ws ns, collectWorkflows dec dirPath entries = Except.ok (ws, ns) ∧
        ws.length = countAccepted entries)
    ∧ (∀ (dec : Decoders) (filePath raw e : String),
      decodeData dec (toLowerStr (extname filePath)) raw = Except.error e →
      parseWorkflow dec filePath (some raw) =
        Except.ok ({ label := basename filePath, description := none,
                     filePath := filePath, command := none },
                   [Notif.warn (parseWarning filePath e)])) := by
  constructor
  · exact fun dec dirPath entries h => collectWorkflows_count dec dirPath entries h
  · intro dec filePath raw e hdec
    rw [parseWorkflow, hdec]
    simp [getProp, lookupLast]

/-- Claim C1 witness: concrete run of the cardinality invariant on the
sample tree and of the degraded-record construction on a failing decode. -/
theorem claim1_one_record_per_file_witness :
    (∃ ws ns,
      collectWorkflows failingDecoders "/proj/.windsurf" sampleEntries = Except.ok (ws, ns) ∧
        ws.length = countAccepted sampleEntries)
    ∧ parseWorkflow failingDecoders "/proj/.windsurf/a.yaml" (some "x") =
        Except.ok ({ label := basename "/proj/.windsurf/a.yaml", description := none,
                     filePath := "/proj/.windsurf/a.yaml", command := none },
                   [Notif.warn (parseWarning "/proj/.windsurf/a.yaml" "syntax error")]) :=
  ⟨claim1_one_record_per_file.1 failingDecoders "/proj/.windsurf" sampleEntries (by decide),
   claim1_one_record_per_file.2 failingDecoders "/proj/.windsurf/a.yaml" "x" "syntax error"
     rfl⟩

/-- Claim C2 counterexample: a root holding one unreadable accepted file
makes the whole scan fail with the propagated read error, so a filesystem
read error does make the scan operation itself fail. -/
theorem claim2_counterexample :
    loadWorkflows failingDecoders (fun _ _ => Ordering.eq)
      [{ path := "/proj",
         entries := FSEntries.cons ".windsurf"
           (FSNode.dir (FSEntries.cons "a.yaml" (FSNode.file none) FSEntries.nil))
           FSEntries.nil }] =
      Except.error (readErrorMsg "/proj/.windsurf/a.yaml") := by
  decide

/-- Claim C2 amended: only decode failures are caught at the parse boundary;
a readable file always yields a record, while a failed read throws out of
the parse operation and aborts the scan. -/
theorem claim2_decode_caught_read_propagates (dec : Decoders) (filePath : String) :
    (∀ raw, ∃ w ns, parseWorkflow dec filePath (some raw) = Except.ok (w, ns))
    ∧ parseWorkflow dec filePath none = Except.error (readErrorMsg filePath) :=
  ⟨fun raw => parseWorkflow_some_ok dec filePath raw, rfl⟩

/-- Claim C3: after every successful scan the record list is sorted by
label, ascending, under the locale comparison, for every set of input
files; the comparison is assumed consistent (transitive and total), as
every correct localeCompare implementation is. -/
theorem claim3_sorted_by_label (dec : Decoders) (loc : String → String → Ordering)
    (roots : List Root) (ws : List WorkflowDefinition) (ns : List Notif)
    (htrans : ∀ a b c : String, loc a b ≠ Ordering.gt → loc b c ≠ Ordering.gt →
      loc a c ≠ Ordering.gt)
    (htotal : ∀ a b : String, loc a b ≠ Ordering.gt ∨ loc b a ≠ Ordering.gt)
    (h : loadWorkflows dec loc roots = Except.ok (ws, ns)) :
    List.Sorted (fun a b => labelLe loc a b = true) ws := by
  haveI : IsTrans WorkflowDefinition (fun a b => labelLe loc a b = true) := by
    constructor
    intro a b c hab hbc
    simp only [labelLe, decide_eq_true_eq] at *
    exact htrans a.label b.label c.label hab hbc
  haveI : IsTotal WorkflowDefinition (fun a b => labelLe loc a b = true) := by
    constructor
    intro a b
    simp only [labelLe, decide_eq_true_eq]
    exact htotal a.label b.label
  rw [loadWorkflows] at h
  cases hacc : loadRootsAcc dec roots with
  | error e => rw [hacc] at h; exact absurd h (by simp)
  | ok p =>
    obtain ⟨ws0, ns0⟩ := p
    rw [hacc] at h
    simp only [Except.ok.injEq, Prod.mk.injEq] at h
    rw [← h.1]
    exact List.sorted_insertionSort _ ws0

/-- Claim C3 witness: a concrete two-file scan under the trivial (constant)
locale comparison produces a list sorted for that comparison. -/
theorem claim3_sorted_by_label_witness :
    List.Sorted
      (fun a b => labelLe (fun _ _ => Ordering.eq) a b = true)
      [{ label := "b.yaml", description := some "  ",
         filePath := "/p/.windsurf/b.yaml", command := none },
       { label := "Build", description := none,
         filePath := "/p/.windsurf/sub/a.json", command := some "make" }] :=
  claim3_sorted_by_label sampleDecoders (fun _ _ => Ordering.eq)
    [{ path := "/p", entries := FSEntries.cons ".windsurf" (FSNode.dir sampleEntries)
        FSEntries.nil }]
    [{ label := "b.yaml", description := some "  ",
       filePath := "/p/.windsurf/b.yaml", command := none },
     { label := "Build", description := none,
       filePath := "/p/.windsurf/sub/a.json", command := some "make" }]
    []
    (fun _ _ _ _ _ => by simp)
    (fun _ _ => Or.inl (by simp))
    (by decide)

/-- Claim C4: on a successful decode, the label is the trimmed name field
when that field is a string that trims to non-empty, and the basename
otherwise (absent, non-string, or whitespace-only name); description and
command are taken exactly when their decoded values are strings. -/
theorem claim4_field_extraction (dec : Decoders) (filePath raw : String) (data : JValue)
    (w : WorkflowDefinition) (ns : List Notif)
    (hdec : decodeData dec (toLowerStr (extname filePath)) raw = Except.ok data)
    (hparse : parseWorkflow dec filePath (some raw) = Except.ok (w, ns)) :
    (∀ s, getProp data "name" = some (JValue.str s) → trimStr s ≠ "" →
      w.label = trimStr s)
    ∧ (∀ s, getProp data "name" = some (JValue.str s) → trimStr s = "" →
      w.label = basename filePath)
    ∧ ((∀ s, getProp data "name" ≠ some (JValue.str s)) → w.label = basename filePath)
    ∧ (∀ s, w.description = some s ↔ getProp data "description" = some (JValue.str s))
    ∧ (∀ s, w.command = some s ↔ getProp data "command" = some (JValue.str s)) := by
  rw [parseWorkflow, hdec] at hparse
  simp only [Except.ok.injEq, Prod.mk.injEq] at hparse
  obtain ⟨hw, hns⟩ := hparse
  subst hw
  refine ⟨?_, ?_, ?_, ?_, ?_⟩
  · intro s hs hne
    simp only [hs, if_pos ((string_length_pos_iff (trimStr s)).mpr hne)]
  · intro s hs h0
    have : ¬ 0 < (trimStr s).length := by
      intro hpos
      exact (string_length_pos_iff (trimStr s)).mp hpos h0
    simp only [hs, if_neg this]
  · intro hns
    cases hn : getProp data "name" with
    | none => simp only [hn]
    | some v =>
      cases v with
      | str s => exact absurd hn (hns s)
      | num n => simp only [hn]
      | bool b => simp only [hn]
      | null => simp only [hn]
      | arr xs => simp only [hn]
      | obj fs => simp only [hn]
  · intro s
    cases hd : getProp data "description" with
    | none => simp [hd]
    | some v => cases v <;> simp [hd]
  · intro s
    cases hc : getProp data "command" with
    | none => simp [hc]
    | some v => cases v <;> simp [hc]

/-- Decoded object produced by the sample JSON decoder. -/
def sampleJsonData : JValue :=
  JValue.obj [("name", JValue.str " Build "), ("command", JValue.str "make")]

/-- Record parsed from the sample JSON object. -/
def sampleJsonRecord : WorkflowDefinition :=
  { label := "Build", description := none,
    filePath := "/p/.windsurf/a.json", command := some "make" }

/-- Claim C4 witness: the sample JSON object with a padded name and a string
command yields the trimmed label and the command field taken verbatim. -/
theorem claim4_field_extraction_witness :
    sampleJsonRecord.label = trimStr " Build "
    ∧ (sampleJsonRecord.command = some "make" ↔
        getProp sampleJsonData "command" = some (JValue.str "make")) :=
  ⟨(claim4_field_extraction sampleDecoders "/p/.windsurf/a.json" "y" sampleJsonData
      sampleJsonRecord [] rfl rfl).1 " Build " rfl (by decide),
   (claim4_field_extraction sampleDecoders "/p/.windsurf/a.json" "y" sampleJsonData
      sampleJsonRecord [] rfl rfl).2.2.2.2 "make"⟩

/-- Claim C5: launching a record hands the runner the command field when
present and the default invocation quoting the source path otherwise, and
always the parent directory of the source path as working directory. -/
theorem claim5_launch_command (w : WorkflowDefinition) :
    ((∀ c, w.command = some c → (executeWorkflow w).command = c)
      ∧ (w.command = none →
        (executeWorkflow w).command = "windsurf run \"" ++ w.filePath ++ "\""))
    ∧ (executeWorkflow w).cwd = dirname w.filePath := by
  refine ⟨⟨?_, ?_⟩, rfl⟩
  · intro c hc
    simp [executeWorkflow, hc]
  · intro hc
    simp [executeWorkflow, hc]

/-- Claim C5 witness: a record with an explicit command launches exactly
that command, one without launches the quoted default, both from the parent
directory of the source file. -/
def echoRecord : WorkflowDefinition :=
  { label := "Build", description := none,
    filePath := "/p/.windsurf/a.json", command := some "echo hi" }

def defaultRecord : WorkflowDefinition :=
  { label := "b.yaml", description := none,
    filePath := "/p/.windsurf/b.yaml", command := none }

theorem claim5_launch_command_witness :
    (executeWorkflow echoRecord).command = "echo hi"
    ∧ (executeWorkflow defaultRecord).command
        = "windsurf run \"" ++ "/p/.windsurf/b.yaml" ++ "\""
    ∧ (executeWorkflow echoRecord).cwd = dirname "/p/.windsurf/a.json" :=
  ⟨(claim5_launch_command echoRecord).1.1 "echo hi" rfl,
   (claim5_launch_command defaultRecord).1.2 rfl,
   (claim5_launch_command echoRecord).2⟩

/-- Claim C6: re-running the scan over unchanged filesystem contents is
idempotent; the second scan yields a record list identical to the first,
whatever state each scan started from. -/
theorem claim6_rescan_idempotent (dec : Decoders) (loc : String → String → Ordering)
    (roots : List Root) (s s1 s2 : RegistryState)
    (h1 : scan dec loc roots s = Except.ok s1)
    (h2 : scan dec loc roots s1 = Except.ok s2) :
    s2.workflows = s1.workflows := by
  rw [scan] at h1 h2
  cases h : loadWorkflows dec loc roots with
  | error e =>
    rw [h] at h1
    exact absurd h1 (by simp)
  | ok p =>
    obtain ⟨ws, ns⟩ := p
    rw [h] at h1 h2
    simp only [Except.ok.injEq] at h1 h2
    rw [← h1, ← h2]

/-- Sample root list used by the concrete scan runs. -/
def sampleRoots : List Root :=
  [{ path := "/p",
     entries := FSEntries.cons ".windsurf" (FSNode.dir sampleEntries) FSEntries.nil }]

/-- Record list of the sample scan under the lexicographic comparison. -/
def sampleSorted : RegistryState :=
  { workflows :=
      [{ label := "Build", description := none,
         filePath := "/p/.windsurf/sub/a.json", command := some "make" },
       { label := "b.yaml", description := some "  ",
         filePath := "/p/.windsurf/b.yaml", command := none }] }

/-- Claim C6 witness: scanning the sample tree twice in a row leaves the
record list unchanged. -/
theorem claim6_rescan_idempotent_witness :
    sampleSorted.workflows = sampleSorted.workflows :=
  claim6_rescan_idempotent sampleDecoders (fun a b => compare a b) sampleRoots
    { workflows := [] } sampleSorted sampleSorted (by decide) (by decide)

/-- Claim C7: launching with no specific record shows one informational
message and stops when the record list is empty, and stops silently, with
no message and no runner invocation, when the picker is cancelled. -/
theorem claim7_empty_or_cancelled
    (pick : List WorkflowDefinition → Option WorkflowDefinition)
    (workflows : List WorkflowDefinition) :
    (workflows = [] →
      runWorkflow pick workflows none = ([Notif.info noWorkflowsMsg], none))
    ∧ (workflows ≠ [] → pick workflows = none →
      runWorkflow pick workflows none = ([], none)) := by
  constructor
  · intro h
    subst h
    rfl
  · intro hne hp
    rw [runWorkflow]
    rw [if_neg (by simpa [List.length_eq_zero] using hne), hp]

/-- Claim C7 witness: the empty registry reports the informational message,
and a cancelled pick over one record is silent. -/
theorem claim7_empty_or_cancelled_witness :
    runWorkflow (fun _ => none) [] none = ([Notif.info noWorkflowsMsg], none)
    ∧ runWorkflow (fun _ => none) [sampleJsonRecord] none = ([], none) :=
  ⟨(claim7_empty_or_cancelled (fun _ => none) []).1 rfl,
   (claim7_empty_or_cancelled (fun _ => none) [sampleJsonRecord]).2 (by simp) rfl⟩

/-- Skipped roots do not change the accumulated scan result. -/
theorem loadRootsAcc_skip (dec : Decoders) (root : Root)
    (hroot : loadRoot dec root = Except.ok ([], [])) :
    ∀ pre post, loadRootsAcc dec (pre ++ root :: post) = loadRootsAcc dec (pre ++ post)
  | [], post => by
    rw [List.nil_append, List.nil_append, loadRootsAcc, hroot]
    cases h : loadRootsAcc dec post with
    | error e => rfl
    | ok p =>
      obtain ⟨ws, ns⟩ := p
      simp
  | r :: pre, post => by
    have ih := loadRootsAcc_skip dec root hroot pre post
    rw [List.cons_append, List.cons_append]
    simp only [loadRootsAcc]
    rw [ih]

/-- Claim C8: a root whose designated subdirectory is absent is skipped
silently; it contributes no records and no notifications, and removing it
from the root list leaves the scan result unchanged wherever it sits. -/
theorem claim8_missing_subdir_skipped (dec : Decoders)
    (loc : String → String → Ordering) (root : Root)
    (h : lookupEntry root.entries ".windsurf" = none) :
    loadRoot dec root = Except.ok ([], [])
    ∧ ∀ pre post, loadWorkflows dec loc (pre ++ root :: post)
        = loadWorkflows dec loc (pre ++ post) := by
  have hroot : loadRoot dec root = Except.ok ([], []) := by rw [loadRoot, h]
  refine ⟨hroot, fun pre post => ?_⟩
  rw [loadWorkflows, loadWorkflows, loadRootsAcc_skip dec root hroot pre post]

/-- A root with no .windsurf entry at all. -/
def bareRoot : Root :=
  { path := "/q", entries := FSEntries.cons "src" (FSNode.dir FSEntries.nil) FSEntries.nil }

/-- Claim C8 witness: the bare root contributes nothing and its presence
ahead of the sample root leaves the scan result unchanged. -/
theorem claim8_missing_subdir_skipped_witness :
    loadRoot failingDecoders bareRoot = Except.ok ([], [])
    ∧ loadWorkflows failingDecoders (fun _ _ => Ordering.eq) ([] ++ bareRoot :: sampleRoots)
        = loadWorkflows failingDecoders (fun _ _ => Ordering.eq) ([] ++ sampleRoots) :=
  ⟨(claim8_missing_subdir_skipped failingDecoders (fun _ _ => Ordering.eq) bareRoot rfl).1,
   (claim8_missing_subdir_skipped failingDecoders (fun _ _ => Ordering.eq) bareRoot rfl).2
     [] sampleRoots⟩

/-- Claim C9: the filter accepts the dotfile named .json (ends-with test),
yet its extname is empty, so parseWorkflow decodes it with the YAML
decoder instead of the JSON decoder the .json extension would select. -/
theorem claim9_dotfile_json_yaml_decoded :
    isWorkflowFile ".json" = true
    ∧ extname (pathJoin "/repo/.windsurf" ".json") = ""
    ∧ (∀ (dec : Decoders) (raw : String),
        decodeData dec (toLowerStr (extname (pathJoin "/repo/.windsurf" ".json"))) raw
          = (dec.yamlLoad raw).map nullishOrEmpty)
    ∧ (∀ (dec : Decoders) (raw : String), decodeData dec ".json" raw = dec.jsonParse raw) := by
  refine ⟨by decide, by decide, ?_, ?_⟩
  · intro dec raw
    have hext : toLowerStr (extname (pathJoin "/repo/.windsurf" ".json")) = "" := by decide
    rw [hext, decodeData, if_neg (by decide)]
  · intro dec raw
    rw [decodeData, if_pos rfl]

/-- Claim C10: a decoded string description is taken verbatim, with no
trimming and no empty-string fallback. -/
theorem claim10_description_verbatim (dec : Decoders) (filePath raw : String)
    (data : JValue) (w : WorkflowDefinition) (ns : List Notif) (s : String)
    (hdec : decodeData dec (toLowerStr (extname filePath)) raw = Except.ok data)
    (hparse : parseWorkflow dec filePath (some raw) = Except.ok (w, ns))
    (hdesc : getProp data "description" = some (JValue.str s)) :
    w.description = some s := by
  rw [parseWorkflow, hdec] at hparse
  simp only [Except.ok.injEq, Prod.mk.injEq] at hparse
  obtain ⟨hw, hns⟩ := hparse
  subst hw
  simp only [hdesc]

/-- Claim C10 witness: a whitespace-only description string survives
verbatim in the record. -/
theorem claim10_description_verbatim_witness :
    ({ label := "b.yaml", description := some "  ",
       filePath := "/p/.windsurf/b.yaml", command := none } : WorkflowDefinition).description
      = some "  " :=
  claim10_description_verbatim sampleDecoders "/p/.windsurf/b.yaml" "x"
    (JValue.obj [("description", JValue.str "  ")])
    { label := "b.yaml", description := some "  ",
      filePath := "/p/.windsurf/b.yaml", command := none }
    [] "  " rfl rfl rfl
